import Mathlib

/-!
Verification of the dotfiles-coach core pipeline: history parsing,
frequency clustering, safety classification, secret scrubbing, and the
command-layer orchestration (`suggest`, `apply`, CLI option handling,
interactive TUI). Definitions are shallow embeddings of the TypeScript
sources; components whose source is absent from the snapshot are
modelled from the specification and say so in their doc comments.
-/

namespace DotfilesCoach

/-! Data model (from `src/types/index.ts`). -/

/-- Supported shells (from `src/types/index.ts`, `ShellType`). -/
inductive ShellType
  | bash
  | zsh
  | powershell
deriving DecidableEq, Repr

/-- Single parsed history line (from `src/types/index.ts`, `HistoryEntry`).
Timestamps are modelled as epoch seconds. -/
structure HistoryEntry where
  command : String
  timestamp : Option Nat
  lineNumber : Nat
deriving DecidableEq, Repr

/-- A repeated command pattern (from `src/types/index.ts`, `CommandPattern`). -/
structure CommandPattern where
  pattern : String
  frequency : Nat
  lastUsed : Option Nat
  variations : List String
deriving DecidableEq, Repr

/-- Severity vocabulary of the safety classifier (spec §6). -/
inductive Severity
  | safe
  | warning
  | danger
deriving DecidableEq, Repr

/-- Dangerous-pattern alert (from `src/types/index.ts`, `SafetyAlert`). -/
structure SafetyAlert where
  pattern : String
  frequency : Nat
  risk : String
  saferAlternative : String
deriving DecidableEq, Repr

/-- Suggestion type (from `src/types/index.ts`, `SuggestionType`). -/
inductive SuggestionType
  | alias
  | function
  | script
deriving DecidableEq, Repr

/-- One automation suggestion (from `src/types/index.ts`, `Suggestion`). -/
structure Suggestion where
  pattern : String
  type : SuggestionType
  code : String
  name : String
  explanation : String
  safety : Option Severity
deriving DecidableEq, Repr

/-- Shape of the suggestions cache (from `src/types/index.ts`,
`SuggestionsCache`). -/
structure SuggestionsCache where
  shell : ShellType
  generatedAt : String
  suggestions : List Suggestion
deriving DecidableEq, Repr

/-! Character-list utilities shared by the scrubber and the parser. -/

/-- Split a character list on a separator character; the result is always
nonempty and separators are consumed. -/
def splitSep (sep : Char) : List Char → List (List Char)
  | [] => [[]]
  | c :: rest =>
    if c = sep then [] :: splitSep sep rest
    else (c :: (splitSep sep rest).headD []) :: (splitSep sep rest).tail

/-- Join token lists with a single separator character. -/
def joinSep (sep : Char) : List (List Char) → List Char
  | [] => []
  | [t] => t
  | t :: ts => t ++ sep :: joinSep sep ts

/-- Decide whether `needle` occurs as a contiguous run inside `hay`. -/
def hasSub (needle : List Char) : List Char → Bool
  | [] => needle.isEmpty
  | c :: rest => needle.isPrefixOf (c :: rest) || hasSub needle rest

/-- Character list of a string literal. -/
def chars (s : String) : List Char := s.data

/-- Numeric value of a run of decimal digit characters. -/
def natOfDigits (ds : List Char) : Nat :=
  ds.foldl (fun n c => 10 * n + (c.toNat - 48)) 0

/-! Secret Scrubber. The file `src/utils/secret-scrubber.ts` is not part of
the snapshot, so the scrubber is modelled from spec §4.4: a fixed ordered
list of filter rules, applied sequentially, each pass rewriting every
matching span of the partially redacted text to one fixed marker. The
model works at whitespace-token granularity: a filter is a predicate on
tokens and a pass replaces every hit token by the marker. -/

/-- Result of one scrub run (spec §3, `RedactionResult`): the redacted text
plus per-filter category match counts; the counts never carry the matched
value itself. The source field `matches` is spelled `matchCounts` here
because `matches` is reserved syntax in Lean. -/
structure RedactionResult where
  scrubbed : String
  matchCounts : List (String × Nat)
deriving DecidableEq, Repr

/-- The single fixed literal substituted for every matched secret span
(spec §6, redaction marker). -/
def redactionMarker : String := "[REDACTED]"

/-- One secret filter: a category name plus a token predicate. -/
structure SecretFilter where
  name : String
  hit : List Char → Bool

/-- Base64 alphabet test. -/
def isB64Char (c : Char) : Bool := c.isAlphanum || c = '+' || c = '/' || c = '='

/-- Lowercase hexadecimal digit test. -/
def isHexLower (c : Char) : Bool := c.isDigit || ('a' ≤ c && c ≤ 'f')

/-- Modelled from the spec: the first filter of the ordered list
(sensitive-named environment assignments), named so theorems can point at
a concrete filter; see `secretFilters`. -/
def envAssignmentFilter : SecretFilter :=
  ⟨"env-assignment", fun t =>
    hasSub (chars "PASSWORD=") t || hasSub (chars "SECRET=") t ||
    hasSub (chars "TOKEN=") t || hasSub (chars "API_KEY=") t⟩

/-- Modelled from the spec: `src/utils/secret-scrubber.ts` is absent from
the snapshot; this fixed ordered list of 12 filter rules follows the
categories of spec §4.4 (sensitive env assignments, bearer values,
private-key markers, cloud access keys, registry and provider tokens,
URL userinfo credentials, JWTs, base64 blobs, password flags, and
high-entropy hex tokens). -/
def secretFilters : List SecretFilter :=
  [ envAssignmentFilter,
    ⟨"bearer-value", fun t =>
      (chars "Bearer").isPrefixOf t && decide (10 ≤ t.length)⟩,
    ⟨"private-key-block", fun t =>
      hasSub (chars "PRIVATE") t && hasSub (chars "KEY") t⟩,
    ⟨"aws-access-key", fun t =>
      (chars "AKIA").isPrefixOf t && t.all Char.isAlphanum &&
      decide (16 ≤ t.length)⟩,
    ⟨"github-token", fun t =>
      (chars "ghp_").isPrefixOf t || (chars "gho_").isPrefixOf t⟩,
    ⟨"npm-token", fun t => (chars "npm_").isPrefixOf t⟩,
    ⟨"slack-token", fun t =>
      (chars "xoxb-").isPrefixOf t || (chars "xoxp-").isPrefixOf t⟩,
    ⟨"url-credentials", fun t =>
      hasSub (chars "://") t && hasSub (chars "@") t⟩,
    ⟨"jwt-token", fun t => (chars "eyJ").isPrefixOf t⟩,
    ⟨"base64-blob", fun t => decide (40 ≤ t.length) && t.all isB64Char⟩,
    ⟨"password-flag", fun t =>
      hasSub (chars "--password=") t || hasSub (chars "--token=") t⟩,
    ⟨"high-entropy-hex", fun t =>
      decide (32 ≤ t.length) && t.all isHexLower⟩ ]

/-- Redact a single token under one filter. -/
def applyTok (f : SecretFilter) (t : List Char) : List Char :=
  if f.hit t then redactionMarker.data else t

/-- One sequential filter pass over the whole (partially redacted) text. -/
def applyFilter (f : SecretFilter) (x : List Char) : List Char :=
  joinSep ' ' ((splitSep ' ' x).map (applyTok f))

/-- Sequential application of the ordered filter list (spec §4.4: each
filter runs over the already partially redacted output of the previous
one). -/
def scrubStages : List SecretFilter → List Char → List Char
  | [], x => x
  | f :: fs, x => scrubStages fs (applyFilter f x)

/-- Per-category match counts, taken stage by stage. -/
def countMatches : List SecretFilter → List Char → List (String × Nat)
  | [], _ => []
  | f :: fs, x =>
    (f.name, (splitSep ' ' x).countP (fun t => f.hit t)) ::
      countMatches fs (applyFilter f x)

/-- Modelled from the spec: the scrub entry point
(`scrubSecrets` in the missing `src/utils/secret-scrubber.ts`),
spec §4.4 contract `scrub(text) -> RedactionResult`. -/
def scrubSecrets (s : String) : RedactionResult :=
  { scrubbed := String.mk (scrubStages secretFilters s.data),
    matchCounts := countMatches secretFilters s.data }

/-- Single-token residue of the full sequential pipeline. -/
def tokChain : List SecretFilter → List Char → List Char
  | [], t => t
  | f :: fs, t => tokChain fs (applyTok f t)

/-! Scrubbing step of the suggest pipeline
(from `src/commands/suggest.ts`, `scrubPatterns` and step 7 of
`runSuggest`). -/

/-- Scrub secrets from `CommandPattern` objects before sending to Copilot
(from `src/commands/suggest.ts`, `scrubPatterns`). -/
def scrubPatterns (patterns : List CommandPattern) : List CommandPattern :=
  patterns.map (fun p =>
    { p with
      pattern := (scrubSecrets p.pattern).scrubbed,
      variations := p.variations.map (fun v => (scrubSecrets v).scrubbed) })

/-- Scrub the dangerous command texts
(from `src/commands/suggest.ts`, `runSuggest` step 7). -/
def scrubDangerous (cmds : List String) : List String :=
  cmds.map (fun cmd => (scrubSecrets cmd).scrubbed)

/-- Everything `runSuggest` hands to the external Copilot engine in step 8:
the scrubbed patterns and the scrubbed dangerous command texts
(from `src/commands/suggest.ts`, steps 7 and 8). -/
def suggestEnginePayload (patterns : List CommandPattern)
    (dangerous : List String) : List CommandPattern × List String :=
  (scrubPatterns patterns, scrubDangerous dangerous)

/-! CLI option handling (from `src/cli.ts`, the `analyze` and `suggest`
action callbacks). Commander hands option values to the actions as raw
strings; the actions convert them with `parseInt(x, 10) || default`. -/

/-- Digit-run value of the front of a list, JS-`parseInt` style: `none`
models `NaN` (no leading digits). -/
def digitsVal (l : List Char) : Option Nat :=
  let d := l.takeWhile Char.isDigit
  if d.isEmpty then none else some (natOfDigits d)

/-- Embedding of JavaScript `parseInt(s, 10)`: skip leading spaces, read an
optional sign and then a decimal digit run; `none` models `NaN`. -/
def jsParseInt (s : String) : Option Int :=
  let t := s.data.dropWhile (fun c => c = ' ')
  match t with
  | '-' :: rest => (digitsVal rest).map (fun n => -(n : Int))
  | '+' :: rest => (digitsVal rest).map (fun n => (n : Int))
  | _ => (digitsVal t).map (fun n => (n : Int))

/-- Embedding of the JavaScript expression `v || d`: `NaN` and `0` are
falsy, so they are replaced by the default `d`. -/
def jsOrDefault (v : Option Int) (d : Int) : Int :=
  match v with
  | none => d
  | some 0 => d
  | some n => n

/-- Options the `analyze` action passes on (from `src/types/index.ts`,
`AnalyzeOptions`, numeric fields only). -/
structure AnalyzeNumericOptions where
  minFrequency : Int
  top : Int
deriving DecidableEq, Repr

/-- Embedding of the numeric-option conversion in the `analyze` action
(from `src/cli.ts`, lines 53-59): `minFrequency` and `top` are converted
with `parseInt(x, 10) || default` and handed straight to `runAnalyze`.
The `Option` result leaves room for a fail-fast validation error; the
source has no such path, so the result is always `some`. -/
def analyzeAction (minFrequencyArg topArg : String) :
    Option AnalyzeNumericOptions :=
  some { minFrequency := jsOrDefault (jsParseInt minFrequencyArg) 5,
         top := jsOrDefault (jsParseInt topArg) 20 }

/-- Embedding of the numeric-option conversion in the `suggest` action
(from `src/cli.ts`, lines 88-94). -/
def suggestAction (minFrequencyArg : String) : Option Int :=
  some (jsOrDefault (jsParseInt minFrequencyArg) 5)

/-! Line Normalizer and Shell Parser. The parser sources
(`src/parsers/bash.ts` and friends) are not part of the snapshot;
the definitions below are modelled from spec §4.1. -/

/-- True when the list ends with the given continuation character. -/
def endsWith (c : Char) (l : List Char) : Bool :=
  match l.getLast? with
  | some d => d = c
  | none => false

/-- The shell's line-continuation marker (spec §4.1): backslash for
Bash/Zsh, backtick for PowerShell. -/
def contChar : ShellType → Char
  | .powershell => Char.ofNat 96
  | _ => '\\'

/-- Modelled from the spec: continuation merging (spec §4.1) of the missing
parser sources — a line ending in the continuation marker is logically
joined with the next physical line; the merged logical command keeps the
first physical line's number. -/
def mergeContinuations (cont : Char) :
    List (Nat × List Char) → List (Nat × List Char)
  | [] => []
  | (n, l) :: rest =>
    if endsWith cont l then
      match mergeContinuations cont rest with
      | [] => [(n, l.dropLast)]
      | (_, l2) :: merged => (n, l.dropLast ++ l2) :: merged
    else (n, l) :: mergeContinuations cont rest

/-- Read a nonempty digit run followed by the given stop character;
returns the run's value and the remainder. -/
def digitsThen (stop : Char) (l : List Char) : Option (Nat × List Char) :=
  let d := l.takeWhile Char.isDigit
  match l.dropWhile Char.isDigit with
  | c :: rest => if d ≠ [] ∧ c = stop then some (natOfDigits d, rest) else none
  | [] => none

/-- Modelled from the spec: the Zsh extended-format header
`: <epoch>:<duration>;<command>` (spec §4.1) of the missing parser
sources — yields the epoch timestamp and the command text. -/
def zshHeader : List Char → Option (Nat × List Char)
  | ':' :: ' ' :: rest =>
    match digitsThen ':' rest with
    | none => none
    | some (epoch, r2) =>
      match digitsThen ';' r2 with
      | none => none
      | some (_, cmd) => some (epoch, cmd)
  | _ => none

/-- Modelled from the spec: per-line parsing (spec §4.1) of the missing
parser sources. Blank lines and `#` comment lines produce no entry; a
Zsh extended header yields `timestamp = epoch`; plain lines carry no
timestamp. -/
def parseLine (shell : ShellType) (n : Nat) (l : List Char) :
    Option HistoryEntry :=
  if l.all (fun c => c = ' ') then none
  else if shell ≠ .powershell ∧ (l.dropWhile (fun c => c = ' ')).headD ' ' = '#'
  then none
  else
    match shell with
    | .zsh =>
      match zshHeader l with
      | some (epoch, cmd) => some ⟨String.mk cmd, some epoch, n⟩
      | none => some ⟨String.mk l, none, n⟩
    | _ => some ⟨String.mk l, none, n⟩

/-- Modelled from the spec: the history parser entry point (spec §4.1;
named after `parseBashHistory` in the missing `src/parsers/bash.ts`).
Splits raw text into physical lines, merges continuations, then parses
each logical line; unparseable lines are skipped, never fatal. -/
def parseBashHistory (shell : ShellType) (raw : String) : List HistoryEntry :=
  let physical := (splitSep '\n' raw.data).enum.map (fun p => (p.1 + 1, p.2))
  let logical := mergeContinuations (contChar shell) physical
  logical.filterMap (fun p => parseLine shell p.1 p.2)

/-! Pattern Clusterer. The file `src/analyzers/frequency.ts` is not part
of the snapshot; the definitions below are modelled from spec §4.2. -/

/-- Max of two optional timestamps, ignoring missing values. -/
def maxOpt : Option Nat → Option Nat → Option Nat
  | none, b => b
  | some a, none => some a
  | some a, some b => some (max a b)

/-- Fuel-indexed Levenshtein edit distance on character lists; the fuel is
only there to make the recursion structural. -/
def levAux : Nat → List Char → List Char → Nat
  | _, [], ys => ys.length
  | _, xs, [] => xs.length
  | 0, _, _ => 0
  | fuel + 1, x :: xs, y :: ys =>
    if x = y then levAux fuel xs ys
    else 1 + min (levAux fuel xs (y :: ys))
               (min (levAux fuel (x :: xs) ys) (levAux fuel xs ys))

/-- Levenshtein edit distance between two strings. -/
def levenshtein (a b : String) : Nat :=
  levAux (a.data.length + b.data.length) a.data b.data

/-- Numerator of the documented default similarity threshold (spec §4.2
and §9: the exact constant is a documented, configurable default). -/
def simThresholdNum : Nat := 3

/-- Denominator of the documented default similarity threshold. -/
def simThresholdDen : Nat := 10

/-- Modelled from the spec: near-duplicate test (spec §4.2) — normalized
edit distance (edit distance over the longer length) below the threshold. -/
def similarCmd (a b : String) : Bool :=
  let m := max a.length b.length
  if m = 0 then true
  else decide (levenshtein a b * simThresholdDen < simThresholdNum * m)

/-- Add one command to the running cluster list, merging every cluster it
links to (union-find semantics: merging is transitive). -/
def insertClustered (cs : List (List String)) (c : String) :
    List (List String) :=
  let linked := cs.filter (fun cl => cl.any (fun d => similarCmd d c))
  let rest := cs.filter (fun cl => !cl.any (fun d => similarCmd d c))
  if linked.isEmpty then cs ++ [[c]]
  else (linked.flatten ++ [c]) :: rest

/-- Modelled from the spec: transitive near-duplicate clustering of the
distinct command texts (spec §4.2, step 2). -/
def clusterCommands (cs : List String) : List (List String) :=
  cs.foldl insertClustered []

/-- Exact-match frequency of one command text among the entries. -/
def cmdFrequency (es : List HistoryEntry) (c : String) : Nat :=
  es.countP (fun e => e.command == c)

/-- Latest timestamp among the entries with this exact command text. -/
def cmdLastUsed (es : List HistoryEntry) (c : String) : Option Nat :=
  es.foldl (fun acc e => if e.command == c then maxOpt acc e.timestamp else acc)
    none

/-- True when `a` is at least as good a cluster representative as `b`:
higher frequency, ties by shorter text, then lexicographically smaller
(spec §4.2, step 3). -/
def betterRep (es : List HistoryEntry) (a b : String) : Bool :=
  let fa := cmdFrequency es a
  let fb := cmdFrequency es b
  if fa ≠ fb then decide (fb < fa)
  else if a.length ≠ b.length then decide (a.length < b.length)
  else decide (a ≤ b)

/-- Representative member of a cluster (spec §4.2, step 3). -/
def chooseRep (es : List HistoryEntry) : List String → String
  | [] => ""
  | c :: cs => cs.foldl (fun best d => if betterRep es best d then best else d) c

/-- Aggregate one cluster into a `CommandPattern` (spec §4.2, step 3). -/
def clusterToPattern (es : List HistoryEntry) (cl : List String) :
    CommandPattern :=
  { pattern := chooseRep es cl,
    frequency := (cl.map (cmdFrequency es)).sum,
    lastUsed := cl.foldl (fun acc c => maxOpt acc (cmdLastUsed es c)) none,
    variations := cl }

/-- Timestamp sort key: a missing timestamp is bottom, so under the dual
order it sorts last (spec §4.2, step 5). -/
def tsKey : Option Nat → WithBot ℕ
  | none => ⊥
  | some n => (n : WithBot ℕ)

/-- Full sort key of a pattern: frequency descending, then last-used
descending with missing timestamps last, then pattern text ascending
(spec §4.2, step 5). -/
def patternKey (p : CommandPattern) :
    Lex (OrderDual ℕ × Lex (OrderDual (WithBot ℕ) × String)) :=
  toLex (OrderDual.toDual p.frequency,
    toLex (OrderDual.toDual (tsKey p.lastUsed), p.pattern))

/-- The output ordering of the clusterer, as a relation on patterns. -/
def patternLE (p q : CommandPattern) : Prop := patternKey p ≤ patternKey q

instance : DecidableRel patternLE :=
  fun p q => inferInstanceAs (Decidable (patternKey p ≤ patternKey q))

instance : IsTotal CommandPattern patternLE :=
  ⟨fun p q => le_total (patternKey p) (patternKey q)⟩

instance : IsTrans CommandPattern patternLE :=
  ⟨fun _ _ _ h h2 => le_trans h h2⟩

/-- Clustering configuration (spec §4.2; the source passes
`minFrequency` and `top` to `analyzeFrequency`). -/
structure FrequencyOptions where
  minFrequency : Nat
  top : Nat
deriving DecidableEq, Repr

/-- Distinct command texts in order of first appearance (spec §4.2,
step 1). -/
def distinctCommands (es : List HistoryEntry) : List String :=
  es.foldl
    (fun acc e => if acc.contains e.command then acc else acc ++ [e.command]) []

/-- All aggregated cluster patterns, before filtering and sorting. -/
def allPatterns (es : List HistoryEntry) : List CommandPattern :=
  (clusterCommands (distinctCommands es)).map (clusterToPattern es)

/-- The patterns surviving the `minFrequency` cut (spec §4.2, step 4):
clusters below the threshold are dropped before truncation. -/
def keptPatterns (es : List HistoryEntry) (opts : FrequencyOptions) :
    List CommandPattern :=
  (allPatterns es).filter (fun p => decide (opts.minFrequency ≤ p.frequency))

/-- Modelled from the spec: the Pattern Clusterer entry point (spec §4.2;
named after `analyzeFrequency` in the missing
`src/analyzers/frequency.ts`). Groups entries by exact text, merges
near-duplicates transitively, aggregates clusters, drops clusters below
`minFrequency`, sorts, and truncates to `top`. -/
def analyzeFrequency (es : List HistoryEntry) (opts : FrequencyOptions) :
    List CommandPattern :=
  (List.insertionSort patternLE (keptPatterns es opts)).take opts.top

/-- Strictly-later comparison of optional timestamps, placing missing
timestamps last (spec §4.2, step 5). -/
def tsAfter (a b : Option Nat) : Prop :=
  match a, b with
  | some x, some y => y < x
  | some _, none => True
  | none, _ => False

/-- The claimed output ordering, spelled out: frequency descending, ties by
last-used descending with missing timestamps last, remaining ties by
pattern text ascending (spec §4.2, step 5). -/
def patternBefore (p q : CommandPattern) : Prop :=
  q.frequency < p.frequency ∨
    (p.frequency = q.frequency ∧
      (tsAfter p.lastUsed q.lastUsed ∨
        (p.lastUsed = q.lastUsed ∧ p.pattern ≤ q.pattern)))

/-! Safety Classifier. The file `src/analyzers/safety.ts` is not part of
the snapshot; the definitions below are modelled from spec §4.3. -/

/-- One safety rule: a predicate over the command text plus its payload
(spec §4.3 and §9: an explicit ordered list of data-described rules). -/
structure SafetyRule where
  test : String → Bool
  risk : String
  saferAlternative : String
  severity : Severity

/-- Modelled from the spec: the highest-priority rule (recursive forced
deletion), named so theorems can point at it; see `safetyRules`. -/
def rmRfRule : SafetyRule :=
  ⟨fun c => hasSub (chars "rm -rf") c.data,
    "Recursive forced deletion without a safety guard",
    "rm -ri", Severity.danger⟩

/-- Modelled from the spec: the ordered safety rule set (spec §4.3) of the
missing `src/analyzers/safety.ts` — recursive forced deletion, disk
overwrite, broad permission changes, piping remote content into a shell,
force-push, and plain command-line credentials; first match wins. -/
def safetyRules : List SafetyRule :=
  [ rmRfRule,
    ⟨fun c => hasSub (chars "dd if=") c.data || hasSub (chars "mkfs") c.data,
      "Disk overwrite or formatting utility",
      "Double-check the target device before running", Severity.danger⟩,
    ⟨fun c => hasSub (chars "chmod 777") c.data ||
        hasSub (chars "chown -R") c.data,
      "Broad unchecked permission or ownership change",
      "chmod 755", Severity.warning⟩,
    ⟨fun c => (hasSub (chars "curl") c.data || hasSub (chars "wget") c.data)
        && (hasSub (chars "| sh") c.data || hasSub (chars "| bash") c.data),
      "Piping remote content directly into a shell interpreter",
      "Download first, inspect, then run", Severity.danger⟩,
    ⟨fun c => hasSub (chars "push --force") c.data ||
        hasSub (chars "push -f") c.data,
      "Force-push or history rewrite on a shared branch",
      "git push --force-with-lease", Severity.warning⟩,
    ⟨fun c => hasSub (chars "--password=") c.data,
      "Credentials passed as plain command-line arguments",
      "Use an environment variable or a credential helper",
      Severity.warning⟩ ]

/-- Modelled from the spec: classify one command text (spec §4.3) — rules
are consulted in fixed priority order and the first match wins; commands
matching no rule produce no alert. -/
def classifyCommand (cmd : String) : Option SafetyRule :=
  safetyRules.find? (fun r => r.test cmd)

/-- Modelled from the spec: the alert set (spec §4.3) — one alert per
distinct dangerous command text, `frequency` counting matching entries. -/
def detectDangerousPatterns (es : List HistoryEntry) : List SafetyAlert :=
  (distinctCommands es).filterMap (fun c =>
    (classifyCommand c).map (fun r =>
      { pattern := c, frequency := cmdFrequency es c,
        risk := r.risk, saferAlternative := r.saferAlternative }))

/-! Interactive TUI (from `src/tui/index.ts` and `src/tui/App.tsx`). -/

/-- Review status of one TUI item (from `src/tui/App.tsx`, `ItemStatus`). -/
inductive ItemStatus
  | pending
  | apply
  | ignore
deriving DecidableEq, Repr

/-- One TUI list row (from `src/tui/App.tsx`, `SuggestionItem`). -/
structure SuggestionItem where
  suggestion : Suggestion
  status : ItemStatus
  editedCode : Option String
deriving DecidableEq, Repr

/-- Outcome of the interactive review (from `src/tui/index.ts`,
`InteractiveResult`). -/
structure InteractiveResult where
  selected : List Suggestion
  ignored : List Suggestion
deriving DecidableEq, Repr

/-- The suggestion an item contributes when applied: its edited code when
present, otherwise the original (from `src/tui/index.ts`, `finish`). -/
def applyEdit (i : SuggestionItem) : Suggestion :=
  match i.editedCode with
  | some c => { i.suggestion with code := c }
  | none => i.suggestion

/-- Embedding of `finish` (from `src/tui/index.ts`, lines 70-86): the
apply-status items become `selected` (with edits applied), the
ignore-status items become `ignored`. -/
def finishTUI (items : List SuggestionItem) : InteractiveResult :=
  { selected := (items.filter (fun i => i.status == ItemStatus.apply)).map
      applyEdit,
    ignored := (items.filter (fun i => i.status == ItemStatus.ignore)).map
      (fun i => i.suggestion) }

/-- Embedding of `renderInteractiveTUI` (from `src/tui/index.ts`, lines
38-51): when stdout or stdin is not a TTY the function falls back to
returning every suggestion as selected with nothing ignored; otherwise
the result is `finish` of the user's final item list (modelled by the
`finalItems` argument). -/
def renderInteractiveTUI (stdoutTTY stdinTTY : Bool)
    (suggestions : List Suggestion) (finalItems : List SuggestionItem) :
    InteractiveResult :=
  if !stdoutTTY || !stdinTTY then { selected := suggestions, ignored := [] }
  else finishTUI finalItems

/-! The `apply` command (from `src/commands/apply.ts`, reproduced inside
`src/README.md`). Filesystem mutations are modelled as an effect trace. -/

/-- Options of the `apply` command (from `src/types/index.ts`,
`ApplyOptions`). -/
structure ApplyOptions where
  output : Option String
  appendTo : Option String
  dryRun : Bool
  backup : Bool
  interactive : Bool
deriving DecidableEq, Repr

/-- One filesystem mutation performed by `runApply`. -/
inductive FsEffect
  | backup (path : String)
  | write (path : String)
  | append (path : String)
deriving DecidableEq, Repr

/-- Default output path (from `src/commands/apply.ts`,
`getDefaultOutputPath`). -/
def getDefaultOutputPath (shell : ShellType) : String :=
  if shell == ShellType.powershell then "~/.dotfiles_coach_profile.ps1"
  else "~/.dotfiles_coach_aliases.sh"

/-- Embedding of `runApply` (from `src/commands/apply.ts`) as its trace of
filesystem mutations. `none` models the error exit when no cached
suggestions exist; `interactiveSelected` models the TUI outcome when
`--interactive` is set, and `outputExists` models the `fileExists` probe
on the output path. -/
def runApply (opts : ApplyOptions) (cache : Option SuggestionsCache)
    (interactiveSelected : List Suggestion) (outputExists : Bool) :
    Option (List FsEffect) :=
  match cache with
  | none => none
  | some c =>
    if c.suggestions.isEmpty then none
    else
      let outputPath := opts.output.getD (getDefaultOutputPath c.shell)
      if opts.interactive && interactiveSelected.isEmpty then some []
      else if opts.dryRun then some []
      else
        match opts.appendTo with
        | some target =>
          some ((if opts.backup then [FsEffect.backup target] else []) ++
            [FsEffect.append target])
        | none =>
          some ((if opts.backup && outputExists
                 then [FsEffect.backup outputPath] else []) ++
            [FsEffect.write outputPath])

/-! Theorems. -/

/-- Helper: splitting a list by the three-valued item status partitions it. -/
theorem statusPartition (items : List SuggestionItem) :
    (items.filter (fun i => i.status == ItemStatus.pending)).length +
      ((items.filter (fun i => i.status == ItemStatus.apply)).length +
        (items.filter (fun i => i.status == ItemStatus.ignore)).length)
      = items.length := by
  induction items with
  | nil => rfl
  | cons a l ih =>
    cases h : a.status <;> simp [List.filter_cons, h] <;> omega

/-- C1: every string the suggest pipeline hands to the external Copilot
engine has passed through the Secret Scrubber — each emitted pattern's
`pattern` text and every variation equal `scrubSecrets` of the original
text, and the dangerous command texts sent are exactly `scrubSecrets` of
the original commands. -/
theorem suggest_payload_scrubbed (ps : List CommandPattern) (ds : List String)
    (i : Nat) (h1 : i < (suggestEnginePayload ps ds).1.length)
    (h2 : i < ps.length) :
    ((suggestEnginePayload ps ds).1[i]).pattern
      = (scrubSecrets (ps[i].pattern)).scrubbed ∧
    ((suggestEnginePayload ps ds).1[i]).variations
      = ps[i].variations.map (fun v => (scrubSecrets v).scrubbed) ∧
    (suggestEnginePayload ps ds).2
      = ds.map (fun cmd => (scrubSecrets cmd).scrubbed) ∧
    (suggestEnginePayload ps ds).1.length = ps.length := by
  refine ⟨?_, ?_, rfl, ?_⟩ <;>
    simp [suggestEnginePayload, scrubPatterns, scrubDangerous]

/-- Witness for C1 at a concrete one-pattern payload. -/
theorem suggest_payload_scrubbed_witness :
    0 < (suggestEnginePayload
        [⟨"git add .", 3, some 5, ["git add ."]⟩] ["rm -rf /"]).1.length ∧
    0 < ([⟨"git add .", 3, some 5, ["git add ."]⟩] :
        List CommandPattern).length ∧
    ((suggestEnginePayload
        [⟨"git add .", 3, some 5, ["git add ."]⟩] ["rm -rf /"]).1[0]).pattern
      = (scrubSecrets "git add .").scrubbed :=
  ⟨by decide, by decide,
    (suggest_payload_scrubbed
      [⟨"git add .", 3, some 5, ["git add ."]⟩] ["rm -rf /"] 0
      (by decide) (by decide)).1⟩

/-- C8: when stdout or stdin is not a TTY, the interactive TUI falls back
to returning the full suggestion list, in its original order, as selected,
with nothing ignored. -/
theorem renderInteractiveTUI_non_tty (o i : Bool) (suggs : List Suggestion)
    (items : List SuggestionItem) (h : o = false ∨ i = false) :
    renderInteractiveTUI o i suggs items
      = { selected := suggs, ignored := [] } := by
  rcases h with h | h <;> subst h <;> simp [renderInteractiveTUI]

/-- Witness for C8 with stdout not a TTY. -/
theorem renderInteractiveTUI_non_tty_witness :
    ((false : Bool) = false ∨ (true : Bool) = false) ∧
    renderInteractiveTUI false true [] []
      = { selected := [], ignored := [] } :=
  ⟨Or.inl rfl, renderInteractiveTUI_non_tty false true [] [] (Or.inl rfl)⟩

/-- C10: the TUI result partitions the final item list by status —
`selected` is exactly the apply-status suggestions in list order with
edits applied, `ignored` is exactly the ignore-status suggestions, and
pending items are counted in neither list. -/
theorem finishTUI_partitions (items : List SuggestionItem) :
    (finishTUI items).selected
      = (items.filter (fun i => i.status == ItemStatus.apply)).map applyEdit ∧
    (finishTUI items).ignored
      = (items.filter (fun i => i.status == ItemStatus.ignore)).map
          (fun i => i.suggestion) ∧
    (items.filter (fun i => i.status == ItemStatus.pending)).length +
      ((finishTUI items).selected.length + (finishTUI items).ignored.length)
      = items.length := by
  refine ⟨rfl, rfl, ?_⟩
  have h := statusPartition items
  simpa [finishTUI] using h

/-- C9: with `--dry-run`, `runApply` performs no filesystem mutation — the
effect trace is empty, so no backup, write, or append happens. -/
theorem runApply_dryRun_no_effects (opts : ApplyOptions)
    (cache : SuggestionsCache) (sel : List Suggestion) (ex : Bool)
    (hdry : opts.dryRun = true) (hne : cache.suggestions ≠ []) :
    runApply opts (some cache) sel ex = some [] := by
  have hne2 : cache.suggestions.isEmpty = false := by
    simpa [List.isEmpty_iff] using hne
  by_cases hint : opts.interactive && sel.isEmpty <;>
    simp [runApply, hne2, hdry, hint]

/-- Witness for C9 at a concrete dry-run invocation. -/
theorem runApply_dryRun_no_effects_witness :
    ((⟨none, none, true, true, false⟩ : ApplyOptions).dryRun = true) ∧
    ((⟨ShellType.bash, "",
        [⟨"p", SuggestionType.alias, "c", "n", "e", none⟩]⟩ :
        SuggestionsCache).suggestions ≠ []) ∧
    runApply (⟨none, none, true, true, false⟩ : ApplyOptions)
      (some (⟨ShellType.bash, "",
        [⟨"p", SuggestionType.alias, "c", "n", "e", none⟩]⟩ :
        SuggestionsCache))
      [] false = some [] :=
  ⟨rfl, by decide,
    runApply_dryRun_no_effects _ _ [] false rfl (by decide)⟩

/-- C4 counterexample: an out-of-range `--min-frequency 0` and a
non-numeric `--min-frequency abc` are not rejected — the CLI actions
silently replace them with the default 5 and call the command. -/
theorem cli_out_of_range_not_rejected :
    analyzeAction "0" "20" = some { minFrequency := 5, top := 20 } ∧
    analyzeAction "0" "20" ≠ none ∧
    analyzeAction "abc" "20" = some { minFrequency := 5, top := 20 } ∧
    suggestAction "0" = some 5 := by
  exact ⟨by decide, by decide, by decide, by decide⟩

/-- Helper: the JS `v || d` default on a nonzero parsed value. -/
theorem jsOrDefault_some_ne (n d : Int) (h : n ≠ 0) :
    jsOrDefault (some n) d = n := by
  unfold jsOrDefault
  split
  · simp_all
  · simp_all
  · simp_all

/-- C4 amended: the CLI layer never fails fast on `minFrequency`/`top` —
every option string is accepted; a non-numeric or zero value is silently
replaced by the default (5 for min-frequency, 20 for top), and any other
value, in range or not, is passed through unchanged. -/
theorem cli_silently_defaults (s t : String) :
    (∃ o, analyzeAction s t = some o) ∧
    (jsParseInt s = none → analyzeAction s t
      = some { minFrequency := 5, top := jsOrDefault (jsParseInt t) 20 }) ∧
    (jsParseInt s = some 0 → analyzeAction s t
      = some { minFrequency := 5, top := jsOrDefault (jsParseInt t) 20 }) ∧
    (∀ n : Int, jsParseInt s = some n → n ≠ 0 → analyzeAction s t
      = some { minFrequency := n, top := jsOrDefault (jsParseInt t) 20 }) ∧
    ((jsParseInt s = none ∨ jsParseInt s = some 0) →
      suggestAction s = some 5) := by
  refine ⟨⟨_, rfl⟩, ?_, ?_, ?_, ?_⟩
  · intro h; simp [analyzeAction, h, jsOrDefault]
  · intro h; simp [analyzeAction, h, jsOrDefault]
  · intro n h hn; simp [analyzeAction, h, jsOrDefault_some_ne n 5 hn]
  · rintro (h | h) <;> simp [suggestAction, h, jsOrDefault]

/-- Witness for the C4 amended claim at a non-numeric option string. -/
theorem cli_silently_defaults_witness :
    jsParseInt "abc" = none ∧
    analyzeAction "abc" "2" = some { minFrequency := 5, top := 2 } :=
  ⟨by decide, (cli_silently_defaults "abc" "2").2.1 (by decide)⟩

/-! Scrubber lemmas (towards C2 and C3). -/

/-- Helper: splitting never yields an empty token list. -/
theorem splitSep_ne_nil (sep : Char) (l : List Char) : splitSep sep l ≠ [] := by
  cases l with
  | nil => simp [splitSep]
  | cons c rest => by_cases h : c = sep <;> simp [splitSep, h]

/-- Helper: splitting a list that starts with the separator. -/
theorem splitSep_cons_sep (sep : Char) (rest : List Char) :
    splitSep sep (sep :: rest) = [] :: splitSep sep rest := by
  simp [splitSep]

/-- Helper: splitting a list that starts with a non-separator character. -/
theorem splitSep_cons_ne (sep c : Char) (rest : List Char) (h : ¬ c = sep)
    (t0 : List Char) (ts : List (List Char))
    (hs : splitSep sep rest = t0 :: ts) :
    splitSep sep (c :: rest) = (c :: t0) :: ts := by
  simp [splitSep, h, hs]

/-- Helper: tokens produced by splitting never contain the separator. -/
theorem splitSep_no_sep (sep : Char) (l : List Char) :
    ∀ t ∈ splitSep sep l, sep ∉ t := by
  induction l with
  | nil =>
    intro t ht
    simp [splitSep] at ht
    simp [ht]
  | cons c rest ih =>
    intro t ht
    obtain ⟨t0, ts, hs⟩ :=
      List.exists_cons_of_ne_nil (splitSep_ne_nil sep rest)
    by_cases h : c = sep
    · subst h
      rw [splitSep_cons_sep] at ht
      rcases List.mem_cons.mp ht with rfl | ht'
      · simp
      · exact ih t ht'
    · rw [splitSep_cons_ne sep c rest h t0 ts hs] at ht
      have h0 : t0 ∈ splitSep sep rest := by
        rw [hs]; exact List.mem_cons_self _ _
      rcases List.mem_cons.mp ht with rfl | ht'
      · intro hm
        rcases List.mem_cons.mp hm with he | hm'
        · exact h he.symm
        · exact ih t0 h0 hm'
      · exact ih t (by rw [hs]; exact List.mem_cons_of_mem _ ht')

/-- Helper: joining the split tokens restores the original list. -/
theorem joinSep_splitSep (sep : Char) (l : List Char) :
    joinSep sep (splitSep sep l) = l := by
  induction l with
  | nil => rfl
  | cons c rest ih =>
    obtain ⟨t0, ts, hs⟩ :=
      List.exists_cons_of_ne_nil (splitSep_ne_nil sep rest)
    by_cases h : c = sep
    · rw [h, splitSep_cons_sep, hs]
      have he : joinSep sep ([] :: t0 :: ts) = sep :: joinSep sep (t0 :: ts) :=
        rfl
      rw [he, ← hs, ih]
    · rw [splitSep_cons_ne sep c rest h t0 ts hs]
      rw [hs] at ih
      cases ts with
      | nil =>
        have he : t0 = rest := by simpa [joinSep] using ih
        simp [joinSep, he]
      | cons t1 ts' =>
        have h1 : joinSep sep ((c :: t0) :: t1 :: ts')
            = (c :: t0) ++ sep :: joinSep sep (t1 :: ts') := rfl
        have h2 : joinSep sep (t0 :: t1 :: ts')
            = t0 ++ sep :: joinSep sep (t1 :: ts') := rfl
        rw [h2] at ih
        rw [h1, List.cons_append, ih]

/-- Helper: splitting a separator-free token followed by a separator. -/
theorem splitSep_append (sep : Char) :
    ∀ (t : List Char), sep ∉ t → ∀ r,
      splitSep sep (t ++ sep :: r) = t :: splitSep sep r
  | [], _, r => by simpa using splitSep_cons_sep sep r
  | c :: t', h, r => by
    have hc : ¬ c = sep := fun e => h (by simp [e])
    have ht' : sep ∉ t' := fun hm => h (List.mem_cons_of_mem _ hm)
    rw [List.cons_append]
    exact splitSep_cons_ne sep c _ hc t' (splitSep sep r)
      (splitSep_append sep t' ht' r)

/-- Helper: splitting a separator-free token is the identity. -/
theorem splitSep_no_sep_id (sep : Char) :
    ∀ t, sep ∉ t → splitSep sep t = [t]
  | [], _ => rfl
  | c :: t', h => by
    have hc : ¬ c = sep := fun e => h (by simp [e])
    have ht' : sep ∉ t' := fun hm => h (List.mem_cons_of_mem _ hm)
    exact splitSep_cons_ne sep c t' hc t' [] (splitSep_no_sep_id sep t' ht')

/-- Helper: splitting a join of separator-free tokens restores them. -/
theorem splitSep_joinSep (sep : Char) :
    ∀ ts, ts ≠ [] → (∀ t ∈ ts, sep ∉ t) →
      splitSep sep (joinSep sep ts) = ts
  | [], hne, _ => absurd rfl hne
  | [t], _, h => splitSep_no_sep_id sep t (h t (List.mem_cons_self _ _))
  | t :: t2 :: ts, _, h => by
    have he : joinSep sep (t :: t2 :: ts)
        = t ++ sep :: joinSep sep (t2 :: ts) := rfl
    rw [he, splitSep_append sep t (h t (List.mem_cons_self _ _))]
    rw [splitSep_joinSep sep (t2 :: ts) (by simp)
      (fun x hx => h x (List.mem_cons_of_mem _ hx))]

/-- Helper: the unfolded form of `scrubSecrets`. -/
theorem scrubSecrets_def (x : String) :
    scrubSecrets x
      = { scrubbed := String.mk (scrubStages secretFilters x.data),
          matchCounts := countMatches secretFilters x.data } := rfl

/-- Helper: the character data of the scrubbed output. -/
theorem scrubbed_data (x : String) :
    (scrubSecrets x).scrubbed.data = scrubStages secretFilters x.data := by
  rw [scrubSecrets_def]

/-- The redaction marker contains no token separator. -/
theorem marker_no_sep : (' ' : Char) ∉ redactionMarker.data := by decide

/-- The redaction marker's literal text matches no configured filter
(spec §4.4: verified so that redaction never cascades). -/
theorem marker_clean : ∀ f ∈ secretFilters, f.hit redactionMarker.data = false := by
  decide

/-- Helper: redacting a token never introduces a separator. -/
theorem applyTok_no_sep (f : SecretFilter) (t : List Char) (h : ' ' ∉ t) :
    ' ' ∉ applyTok f t := by
  unfold applyTok
  split
  · exact marker_no_sep
  · exact h

/-- Helper: the marker is a fixed point of every token redaction. -/
theorem applyTok_marker (f : SecretFilter) :
    applyTok f redactionMarker.data = redactionMarker.data := by
  unfold applyTok
  split <;> rfl

/-- Helper: one filter pass acts tokenwise. -/
theorem splitSep_applyFilter (f : SecretFilter) (x : List Char) :
    splitSep ' ' (applyFilter f x) = (splitSep ' ' x).map (applyTok f) := by
  unfold applyFilter
  apply splitSep_joinSep
  · simpa using splitSep_ne_nil ' ' x
  · intro t ht
    obtain ⟨t0, h0, rfl⟩ := List.mem_map.mp ht
    exact applyTok_no_sep f t0 (splitSep_no_sep ' ' x t0 h0)

/-- Helper: the sequential pipeline acts tokenwise. -/
theorem splitSep_scrubStages :
    ∀ fs (x : List Char),
      splitSep ' ' (scrubStages fs x) = (splitSep ' ' x).map (tokChain fs)
  | [], x => by
    rw [show tokChain ([] : List SecretFilter) = id from rfl, List.map_id]
    rfl
  | f :: fs, x => by
    rw [show scrubStages (f :: fs) x = scrubStages fs (applyFilter f x) from
      rfl]
    rw [splitSep_scrubStages fs (applyFilter f x), splitSep_applyFilter,
      List.map_map]
    rfl

/-- Helper: the marker is a fixed point of the whole token pipeline. -/
theorem tokChain_marker :
    ∀ fs, tokChain fs redactionMarker.data = redactionMarker.data
  | [] => rfl
  | f :: fs => by
    rw [show tokChain (f :: fs) redactionMarker.data
        = tokChain fs (applyTok f redactionMarker.data) from rfl,
      applyTok_marker]
    exact tokChain_marker fs

/-- Helper: a token no filter hits passes through the pipeline unchanged. -/
theorem tokChain_clean :
    ∀ fs (t : List Char), (∀ f ∈ fs, f.hit t = false) → tokChain fs t = t
  | [], _, _ => rfl
  | f :: fs, t, h => by
    have h1 := h f (List.mem_cons_self _ _)
    rw [show tokChain (f :: fs) t = tokChain fs (applyTok f t) from rfl,
      show applyTok f t = t by unfold applyTok; rw [h1]; simp]
    exact tokChain_clean fs t (fun g hg => h g (List.mem_cons_of_mem _ hg))

/-- Helper: every token leaves the pipeline either untouched — in which
case no filter in the list hits it — or as the redaction marker. -/
theorem tokChain_result :
    ∀ fs (t : List Char),
      (tokChain fs t = t ∧ ∀ f ∈ fs, f.hit t = false) ∨
        tokChain fs t = redactionMarker.data
  | [], t => Or.inl ⟨rfl, by simp⟩
  | f :: fs, t => by
    by_cases h : f.hit t = true
    · right
      rw [show tokChain (f :: fs) t = tokChain fs (applyTok f t) from rfl,
        show applyTok f t = redactionMarker.data by unfold applyTok; simp [h]]
      exact tokChain_marker fs
    · have hf : f.hit t = false := by simpa using h
      have hid : applyTok f t = t := by unfold applyTok; rw [hf]; simp
      rcases tokChain_result fs t with ⟨he, hall⟩ | hm
      · left
        refine ⟨?_, ?_⟩
        · rw [show tokChain (f :: fs) t = tokChain fs (applyTok f t) from rfl,
            hid]
          exact he
        · intro g hg
          rcases List.mem_cons.mp hg with rfl | hg'
          · exact hf
          · exact hall g hg'
      · right
        rw [show tokChain (f :: fs) t = tokChain fs (applyTok f t) from rfl,
          hid]
        exact hm

/-- C2: the scrubbed output contains no remaining match of any configured
filter — every token of `scrub(x).scrubbed` fails every filter predicate,
for every input. -/
theorem scrub_no_remaining_match (x : String) (t : List Char)
    (ht : t ∈ splitSep ' ' (scrubSecrets x).scrubbed.data)
    (f : SecretFilter) (hf : f ∈ secretFilters) :
    f.hit t = false := by
  rw [scrubbed_data, splitSep_scrubStages] at ht
  obtain ⟨t0, h0, rfl⟩ := List.mem_map.mp ht
  rcases tokChain_result secretFilters t0 with ⟨he, hall⟩ | hm
  · rw [he]
    exact hall f hf
  · rw [hm]
    exact marker_clean f hf

/-- Witness for C2: a secret-shaped input whose scrubbed output token is
checked against the first (environment-assignment) filter. -/
theorem scrub_no_remaining_match_witness :
    redactionMarker.data ∈
      splitSep ' ' (scrubSecrets "export PASSWORD=hunter2").scrubbed.data ∧
    envAssignmentFilter ∈ secretFilters ∧
    envAssignmentFilter.hit redactionMarker.data = false :=
  ⟨by decide, List.mem_cons_self _ _,
    scrub_no_remaining_match "export PASSWORD=hunter2" redactionMarker.data
      (by decide) envAssignmentFilter (List.mem_cons_self _ _)⟩

/-- Helper: each token's pipeline residue is a pipeline fixed point. -/
theorem tokChain_idem (t : List Char) :
    tokChain secretFilters (tokChain secretFilters t)
      = tokChain secretFilters t := by
  rcases tokChain_result secretFilters t with ⟨he, _⟩ | hm
  · exact congrArg (tokChain secretFilters) he
  · exact (congrArg (tokChain secretFilters) hm).trans
      ((tokChain_marker secretFilters).trans hm.symm)

/-- Helper: redacting an already-redacted token list changes nothing. -/
theorem map_tokChain_twice (ts : List (List Char)) :
    (ts.map (tokChain secretFilters)).map (tokChain secretFilters)
      = ts.map (tokChain secretFilters) := by
  induction ts with
  | nil => rfl
  | cons t ts ih =>
    simp only [List.map_cons]
    rw [tokChain_idem t, ih]

/-- C3: the Secret Scrubber is idempotent — re-running the pipeline on
already-redacted text is a no-op. -/
theorem scrub_idempotent (x : String) :
    (scrubSecrets (scrubSecrets x).scrubbed).scrubbed
      = (scrubSecrets x).scrubbed := by
  have key : ∀ l : List Char,
      scrubStages secretFilters (scrubStages secretFilters l)
        = scrubStages secretFilters l := by
    intro l
    have h1 : splitSep ' ' (scrubStages secretFilters
          (scrubStages secretFilters l))
        = splitSep ' ' (scrubStages secretFilters l) :=
      calc splitSep ' ' (scrubStages secretFilters
              (scrubStages secretFilters l))
          = (splitSep ' ' (scrubStages secretFilters l)).map
              (tokChain secretFilters) := splitSep_scrubStages _ _
        _ = ((splitSep ' ' l).map (tokChain secretFilters)).map
              (tokChain secretFilters) := by
            rw [splitSep_scrubStages]
        _ = (splitSep ' ' l).map (tokChain secretFilters) :=
            map_tokChain_twice (splitSep ' ' l)
        _ = splitSep ' ' (scrubStages secretFilters l) :=
            (splitSep_scrubStages _ _).symm
    have h2 := congrArg (joinSep ' ') h1
    rwa [joinSep_splitSep, joinSep_splitSep] at h2
  calc (scrubSecrets (scrubSecrets x).scrubbed).scrubbed
      = String.mk (scrubStages secretFilters
          ((scrubSecrets x).scrubbed.data)) := by rw [scrubSecrets_def]
    _ = String.mk (scrubStages secretFilters
          (scrubStages secretFilters x.data)) := by rw [scrubbed_data]
    _ = String.mk (scrubStages secretFilters x.data) :=
        congrArg String.mk (key x.data)
    _ = (scrubSecrets x).scrubbed := by rw [scrubSecrets_def]

/-! Parser lemmas (towards C5). -/

/-- Helper: `takeWhile`/`dropWhile` on a satisfying run followed by a
failing character. -/
theorem takeWhile_all_append (p : Char → Bool) :
    ∀ (d : List Char), (∀ c ∈ d, p c = true) → ∀ (c : Char), p c = false →
      ∀ r, (d ++ c :: r).takeWhile p = d ∧ (d ++ c :: r).dropWhile p = c :: r
  | [], _, c, hc, r => by
    simp [List.takeWhile_cons, List.dropWhile_cons, hc]
  | a :: d, h, c, hc, r => by
    have ha : p a = true := h a (List.mem_cons_self _ _)
    have hd : ∀ x ∈ d, p x = true := fun x hx => h x (List.mem_cons_of_mem _ hx)
    obtain ⟨ht, hdr⟩ := takeWhile_all_append p d hd c hc r
    refine ⟨?_, ?_⟩
    · rw [List.cons_append, List.takeWhile_cons, ha]
      simp [ht]
    · rw [List.cons_append, List.dropWhile_cons, ha]
      simp [hdr]

/-- Helper: reading a digit run up to a non-digit stop character. -/
theorem digitsThen_spec (stop : Char) (hstop : stop.isDigit = false)
    (d : List Char) (hd : d ≠ []) (hdig : ∀ c ∈ d, c.isDigit = true)
    (r : List Char) :
    digitsThen stop (d ++ stop :: r) = some (natOfDigits d, r) := by
  obtain ⟨ht, hdr⟩ := takeWhile_all_append Char.isDigit d hdig stop hstop r
  simp only [digitsThen, ht, hdr]
  simp [hd]

/-- Helper: the Zsh extended header parses as the spec describes. -/
theorem zshHeader_spec (e d cmd : List Char) (he : e ≠ []) (hd : d ≠ [])
    (hde : ∀ c ∈ e, c.isDigit = true) (hdd : ∀ c ∈ d, c.isDigit = true) :
    zshHeader (':' :: ' ' :: (e ++ ':' :: (d ++ ';' :: cmd)))
      = some (natOfDigits e, cmd) := by
  have h1 := digitsThen_spec ':' (by decide) e he hde (d ++ ';' :: cmd)
  have h2 := digitsThen_spec ';' (by decide) d hd hdd cmd
  simp only [zshHeader, h1, h2]

/-- Helper: a Zsh extended line parses into the epoch timestamp and the
command after the semicolon. -/
theorem parseLine_zsh_header (n : Nat) (e d cmd : List Char) (he : e ≠ [])
    (hd : d ≠ []) (hde : ∀ c ∈ e, c.isDigit = true)
    (hdd : ∀ c ∈ d, c.isDigit = true) :
    parseLine ShellType.zsh n (':' :: ' ' :: (e ++ ':' :: (d ++ ';' :: cmd)))
      = some ⟨String.mk cmd, some (natOfDigits e), n⟩ := by
  have hz := zshHeader_spec e d cmd he hd hde hdd
  have hall : ((':' :: ' ' :: (e ++ ':' :: (d ++ ';' :: cmd))).all
      (fun c => c = ' ')) = false := rfl
  have hcond : ¬(ShellType.zsh ≠ ShellType.powershell ∧
      (((':' :: ' ' :: (e ++ ':' :: (d ++ ';' :: cmd))).dropWhile
        (fun c => c = ' ')).headD ' ') = '#') := by
    intro h
    have h2 := h.2
    simp [List.dropWhile_cons] at h2
  simp only [parseLine, hall, Bool.false_eq_true, if_false, if_neg hcond, hz]

/-- Helper: a plain Bash line that is neither blank nor a comment parses
into an entry with no timestamp. -/
theorem parseLine_bash_plain (n : Nat) (l : List Char)
    (hb : (l.all (fun c => c = ' ')) = false)
    (hc : ((l.dropWhile (fun c => c = ' ')).headD ' ') ≠ '#') :
    parseLine ShellType.bash n l = some ⟨String.mk l, none, n⟩ := by
  have hcond : ¬(ShellType.bash ≠ ShellType.powershell ∧
      ((l.dropWhile (fun c => c = ' ')).headD ' ') = '#') :=
    fun h => hc h.2
  simp only [parseLine, hb, Bool.false_eq_true, if_false, if_neg hcond]

/-- C5: the Zsh line `": 1690000000:0;ls -la"` as the first physical line
parses to exactly one entry with command `"ls -la"`, timestamp
`1690000000`, line number 1; generally, a Zsh `: <epoch>:<duration>;<cmd>`
prefix parses into `timestamp = epoch` and `command = cmd`, and plain
Bash lines parse with no timestamp. -/
theorem zsh_parse_contract :
    parseBashHistory ShellType.zsh ": 1690000000:0;ls -la"
      = [⟨"ls -la", some 1690000000, 1⟩] ∧
    (∀ (n : Nat) (e d cmd : List Char), e ≠ [] → d ≠ [] →
      (∀ c ∈ e, c.isDigit = true) → (∀ c ∈ d, c.isDigit = true) →
      parseLine ShellType.zsh n
          (':' :: ' ' :: (e ++ ':' :: (d ++ ';' :: cmd)))
        = some ⟨String.mk cmd, some (natOfDigits e), n⟩) ∧
    (∀ (n : Nat) (l : List Char), (l.all (fun c => c = ' ')) = false →
      ((l.dropWhile (fun c => c = ' ')).headD ' ') ≠ '#' →
      parseLine ShellType.bash n l = some ⟨String.mk l, none, n⟩) := by
  refine ⟨by decide, ?_, ?_⟩
  · intro n e d cmd he hd hde hdd
    exact parseLine_zsh_header n e d cmd he hd hde hdd
  · intro n l hb hc
    exact parseLine_bash_plain n l hb hc

/-- Witness for C5 at a small concrete Zsh header. -/
theorem zsh_parse_contract_witness :
    (['1'] : List Char) ≠ [] ∧ (['0'] : List Char) ≠ [] ∧
    parseLine ShellType.zsh 1
        (':' :: ' ' :: ((['1'] : List Char) ++ ':' :: (['0'] ++ ';' :: ['l', 's'])))
      = some ⟨String.mk ['l', 's'], some (natOfDigits ['1']), 1⟩ :=
  ⟨by decide, by decide,
    zsh_parse_contract.2.1 1 ['1'] ['0'] ['l', 's']
      (by decide) (by decide) (by decide) (by decide)⟩

/-! Clusterer lemmas (towards C6). -/

/-- Helper: the timestamp key order mirrors `tsAfter`. -/
theorem tsKey_lt_iff (a b : Option Nat) :
    tsKey b < tsKey a ↔ tsAfter a b := by
  cases a <;> cases b <;>
    simp [tsKey, tsAfter, WithBot.coe_lt_coe, WithBot.not_lt_bot]
  exact WithBot.bot_lt_coe _

/-- Helper: the timestamp key is injective. -/
theorem tsKey_inj (a b : Option Nat) : tsKey a = tsKey b ↔ a = b := by
  cases a <;> cases b <;> simp [tsKey, WithBot.coe_eq_coe]

/-- Helper: the lexicographic sort key realises exactly the claimed
ordering. -/
theorem patternLE_iff (p q : CommandPattern) :
    patternLE p q ↔ patternBefore p q := by
  unfold patternLE patternKey patternBefore
  simp only [Prod.Lex.le_iff, OrderDual.toDual_lt_toDual,
    OrderDual.toDual_inj, tsKey_lt_iff, tsKey_inj]

/-- C6: for `minFrequency ≥ 1` and `topN ≥ 1`, the clusterer's output has
length at most `topN`, keeps only clusters at or above `minFrequency`
(dropped before truncation), and is ordered by frequency descending, ties
by last-used descending with missing timestamps last, remaining ties by
pattern text ascending; as a pure function of its inputs it is
deterministic. -/
theorem analyzeFrequency_contract (es : List HistoryEntry)
    (opts : FrequencyOptions) (hmin : 1 ≤ opts.minFrequency)
    (htop : 1 ≤ opts.top) :
    (analyzeFrequency es opts).length ≤ opts.top ∧
    (∀ p ∈ analyzeFrequency es opts, opts.minFrequency ≤ p.frequency) ∧
    (analyzeFrequency es opts).Pairwise patternBefore := by
  refine ⟨?_, ?_, ?_⟩
  · rw [show analyzeFrequency es opts
        = (List.insertionSort patternLE (keptPatterns es opts)).take opts.top
        from rfl, List.length_take]
    exact min_le_left _ _
  · intro p hp
    have h1 : p ∈ List.insertionSort patternLE (keptPatterns es opts) :=
      List.mem_of_mem_take hp
    have h2 : p ∈ keptPatterns es opts :=
      (List.perm_insertionSort patternLE _).subset h1
    have h3 := (List.mem_filter.mp h2).2
    exact of_decide_eq_true h3
  · have hs : (List.insertionSort patternLE
        (keptPatterns es opts)).Pairwise patternLE :=
      List.sorted_insertionSort patternLE (keptPatterns es opts)
    have ht : (analyzeFrequency es opts).Pairwise patternLE :=
      hs.sublist (List.take_sublist _ _)
    exact ht.imp (fun h => (patternLE_iff _ _).mp h)

/-- Witness for C6 at a one-entry history with `minFrequency = topN = 1`. -/
theorem analyzeFrequency_contract_witness :
    1 ≤ (⟨1, 1⟩ : FrequencyOptions).minFrequency ∧
    1 ≤ (⟨1, 1⟩ : FrequencyOptions).top ∧
    (analyzeFrequency [⟨"ls", none, 1⟩] ⟨1, 1⟩).length ≤ 1 :=
  ⟨by decide, by decide,
    (analyzeFrequency_contract [⟨"ls", none, 1⟩] ⟨1, 1⟩
      (by decide) (by decide)).1⟩

/-! Classifier theorems (towards C7). -/

/-- C7: the classifier tags `"rm -rf /"` with severity `danger` and a
non-empty safer alternative, produces nothing for `"ls -la"`, and never
produces an alert for a command matching no rule. -/
theorem safety_classifier_contract :
    classifyCommand "rm -rf /" = some rmRfRule ∧
    rmRfRule.severity = Severity.danger ∧
    rmRfRule.saferAlternative ≠ "" ∧
    classifyCommand "ls -la" = none ∧
    (∀ cmd : String, (∀ r ∈ safetyRules, r.test cmd = false) →
      classifyCommand cmd = none) := by
  refine ⟨rfl, rfl, by decide, rfl, ?_⟩
  intro cmd h
  unfold classifyCommand
  refine List.find?_eq_none.mpr (fun r hr => ?_)
  simp [h r hr]

/-- Witness for C7 at a command matching no rule. -/
theorem safety_classifier_contract_witness :
    (∀ r ∈ safetyRules, r.test "echo hi" = false) ∧
    classifyCommand "echo hi" = none :=
  ⟨by decide, safety_classifier_contract.2.2.2.2 "echo hi" (by decide)⟩

end DotfilesCoach
